import Mathlib

/-!
Verification development for the AlgoBlocks strategy evaluation and
backtesting engine.  The definitions below are a shallow embedding of the
Python sources:

* `utils/backtest.py`  — `run_backtest`, `calculate_performance_metrics`
* `utils/strategy.py`  — `execute_strategy`, `generate_signals`, `evaluate_condition`
* `utils/indicators.py` — `add_rsi`, `add_bollinger_bands`
* `utils/performance.py` — `analyze_trades` (profit factor)

Prices, cash and indicator values are modelled as rationals (the Python
code uses floats; the float-special paths `inf`/`NaN` that the code relies
on — RSI when the average loss is zero, the profit-factor sentinel — are
modelled by explicit branches, documented at each definition).  Bar
timestamps are modelled as natural number indices 0,1,2,…; the dataframe
index only labels rows and never influences the control flow of the
simulator.  Python strings (condition expressions, column names, block
type tags) are modelled as `List Char`.
-/

namespace AlgoBlocks

/-! ## Backtest simulator (`utils/backtest.py`) -/

/-- One row of the signal-annotated dataframe that `run_backtest` iterates
over: the close price, the `signal` column (1 buy, -1 sell, 0 hold) and the
`exit_signal` column (1 exit, 0 otherwise), as produced by
`generate_signals` (`utils/strategy.py`) and consumed by the loop in
`utils/backtest.py` lines 41–95. -/
structure Bar where
  close : ℚ
  signal : ℤ
  exitSignal : ℤ
  deriving Repr, DecidableEq, Inhabited

/-- A recorded trade: the dictionaries appended to `trades` in
`run_backtest` (`utils/backtest.py` lines 63–70 and 81–90).  `date` is the
bar index; a sell additionally records `pnl` and `pnl_pct`. -/
inductive Trade where
  | buy (date : ℕ) (price : ℚ) (shares : ℤ) (value commissionPaid : ℚ)
  | sell (date : ℕ) (price : ℚ) (shares : ℤ) (value commissionPaid pnl pnlPct : ℚ)
  deriving Repr, DecidableEq

/-- `True` exactly for buy trades. -/
def isBuy : Trade → Bool
  | .buy .. => true
  | .sell .. => false

/-- `True` exactly for sell trades (the `t['type'] == 'sell'` filter used
by both metric computations). -/
def isSell : Trade → Bool
  | .buy .. => false
  | .sell .. => true

/-- `t.get('pnl', 0)`: the recorded pnl of a sell, 0 for a buy (which has
no `pnl` key). -/
def pnlOf : Trade → ℚ
  | .buy .. => 0
  | .sell _ _ _ _ _ pnl _ => pnl

/-- Number of buy trades in a trade list. -/
def buyCount (ts : List Trade) : ℕ := (ts.filter isBuy).length

/-- Number of sell trades in a trade list. -/
def sellCount (ts : List Trade) : ℕ := (ts.filter isSell).length

/-- The mutable loop state of `run_backtest`: `position` (0 = flat,
1 = long), `capital`, `shares` and `entry_price`
(`utils/backtest.py` lines 32–36). -/
structure BTState where
  position : ℤ
  capital : ℚ
  shares : ℤ
  entryPrice : ℚ
  deriving Repr, DecidableEq, Inhabited

/-- Initial simulator state (`position = 0`, `capital = initial_capital`,
`shares = 0`, `entry_price = 0`). -/
def initState (initialCapital : ℚ) : BTState :=
  ⟨0, initialCapital, 0, 0⟩

/-- One point of the recorded equity curve (`utils/backtest.py`
lines 47–50). -/
structure EquityPoint where
  date : ℕ
  equity : ℚ
  deriving Repr, DecidableEq, Inhabited

/-- The mark-to-market equity recorded at the top of each loop iteration
(`utils/backtest.py` lines 42–45): `capital + shares * close` while long,
plain `capital` while flat. -/
def equityValue (st : BTState) (close : ℚ) : ℚ :=
  if st.position = 1 then st.capital + st.shares * close else st.capital

/-- The signal-handling part of one iteration of the `run_backtest` loop
(`utils/backtest.py` lines 52–95): the buy branch fires on
`signal == 1 and position == 0`, otherwise (`elif`) the sell branch fires
on `(signal == -1 or exit_signal == 1) and position == 1`.  Python's float
floor-division `//` is modelled by `Int.floor` on rationals.  Returns the
updated state and the (zero or one) trades appended at this bar. -/
def stepTrades (comm : ℚ) (st : BTState) (date : ℕ) (bar : Bar) :
    BTState × List Trade :=
  if bar.signal = 1 ∧ st.position = 0 then
    let sh : ℤ := ⌊st.capital * (1 - comm) / bar.close⌋
    (⟨1, st.capital - sh * bar.close * (1 + comm), sh, bar.close⟩,
      [Trade.buy date bar.close sh (sh * bar.close) (sh * bar.close * comm)])
  else if (bar.signal = -1 ∨ bar.exitSignal = 1) ∧ st.position = 1 then
    (⟨0, st.capital + st.shares * bar.close * (1 - comm), 0, 0⟩,
      [Trade.sell date bar.close st.shares (st.shares * bar.close)
        (st.shares * bar.close * comm)
        (st.shares * (bar.close - st.entryPrice)
          - st.shares * bar.close * comm - st.shares * st.entryPrice * comm)
        ((bar.close / st.entryPrice - 1) * 100 - comm * 2 * 100)])
  else (st, [])

/-- The state component of one loop iteration; the bar index appears only
inside the recorded trade, so the state evolution does not depend on it. -/
def stepState (comm : ℚ) (st : BTState) (bar : Bar) : BTState :=
  (stepTrades comm st 0 bar).1

/-- The simulator state after processing a list of bars in order, starting
from `st` (the loop of `utils/backtest.py` restricted to its state
variables). -/
def stateAfter (comm : ℚ) (st : BTState) (bars : List Bar) : BTState :=
  bars.foldl (fun s b => stepState comm s b) st

/-- The full `run_backtest` loop (`utils/backtest.py` lines 41–95):
threads the state through the bars while collecting, per bar, first the
equity point (computed from the state carried in) and then any trade.
Returns (final state, trades, equity curve). -/
def runLoop (comm : ℚ) : BTState → ℕ → List Bar →
    BTState × List Trade × List EquityPoint
  | st, _, [] => (st, [], [])
  | st, i, bar :: rest =>
    let step := stepTrades comm st i bar
    let next := runLoop comm step.1 (i + 1) rest
    (next.1, step.2 ++ next.2.1,
      EquityPoint.mk i (equityValue st bar.close) :: next.2.2)

/-- The result record of `run_backtest` (`utils/backtest.py`
lines 97–119): trades, equity curve and final equity (capital, plus the
mark-to-market value of an open position priced at the last close). -/
structure BTResult where
  finalState : BTState
  trades : List Trade
  equity : List EquityPoint
  finalEquity : ℚ
  deriving Repr, DecidableEq

/-- `run_backtest` on a prepared signal dataframe: run the loop from the
initial state, then compute `final_equity`
(`utils/backtest.py` lines 97–100). -/
def runBacktest (bars : List Bar) (initialCapital comm : ℚ) : BTResult :=
  let r := runLoop comm (initState initialCapital) 0 bars
  ⟨r.1, r.2.1, r.2.2,
    if r.1.position = 1 then
      r.1.capital + r.1.shares * ((bars.map Bar.close).getLastD 0)
    else r.1.capital⟩

/-- Helper for the spec's cross-over scenario bars; `prev` is the previous
close. -/
def crossBarsAux (prev : ℚ) : List ℚ → List Bar
  | [] => []
  | c :: rest =>
    ⟨c, if prev < c then 1 else 0, if c < prev then 1 else 0⟩ ::
      crossBarsAux c rest

/-- Signal bars for the strategy "buy when close > prior close, sell when
close < prior close" over a list of closes: `signal = 1` where the close
is greater than the prior close, `exit_signal = 1` where it is less; the
first bar has no prior close, hence no signal. -/
def crossBars : List ℚ → List Bar
  | [] => []
  | c :: rest => ⟨c, 0, 0⟩ :: crossBarsAux c rest

/-- Assemble the dataframe rows `run_backtest` iterates over from a close
column and the two signal columns. -/
def mkBars (closes : List ℚ) (sig ex : List ℤ) : List Bar :=
  List.zipWith3 Bar.mk closes sig ex

/-- `alternatesFrom long ts` holds when, starting from position flag
`long` (true = LONG), the trade list alternates correctly: a buy is only
recorded while flat and moves to LONG, a sell only while LONG and moves to
flat.  This is the precise form of "each sell closes the position opened
by exactly one preceding buy". -/
def alternatesFrom : Bool → List Trade → Bool
  | _, [] => true
  | long, t :: rest =>
    if isBuy t then !long && alternatesFrom true rest
    else long && alternatesFrom false rest

/-- The state invariant of the simulator: position is FLAT or LONG, cash
and share count are nonnegative, and a flat state tracks zero shares. -/
def StInv (st : BTState) : Prop :=
  (st.position = 0 ∨ st.position = 1) ∧ 0 ≤ st.capital ∧ 0 ≤ st.shares ∧
    (st.position = 0 → st.shares = 0)

/-! ## Condition evaluator and signal generator (`utils/strategy.py`)

Python strings are modelled as `List Char`; `Str` abbreviates this.  The
string manipulation of `evaluate_condition` (`in`, `split`, `strip`,
`float(...)`) is re-implemented structurally below so that every
definition is executable. -/

/-- Python strings, modelled as character lists. -/
abbrev Str := List Char

/-- Python `str.split(sep)` for a one-character separator: splits at every
occurrence, keeping empty pieces. -/
def splitOnChar (c : Char) : Str → List Str
  | [] => [[]]
  | x :: xs =>
    match splitOnChar c xs with
    | [] => [[]]
    | h :: t => if x = c then [] :: h :: t else (x :: h) :: t

/-- Whether the two-character operator `==` occurs in the string
(Python `'==' in condition`). -/
def containsEqEq : Str → Bool
  | [] => false
  | '=' :: '=' :: _ => true
  | _ :: xs => containsEqEq xs

/-- Python `str.split('==')`: leftmost, non-overlapping splitting on the
two-character separator. -/
def splitOnEqEq : Str → List Str
  | [] => [[]]
  | '=' :: '=' :: xs =>
    match splitOnEqEq xs with
    | [] => [[]]
    | h :: t => [] :: h :: t
  | x :: xs =>
    match splitOnEqEq xs with
    | [] => [[]]
    | h :: t => (x :: h) :: t

/-- Python `str.strip()`: remove leading and trailing whitespace. -/
def strTrim (s : Str) : Str :=
  ((s.dropWhile Char.isWhitespace).reverse.dropWhile Char.isWhitespace).reverse

/-- Numeric value of a nonempty all-digit string. -/
def digitsVal (s : Str) : Option ℕ :=
  if s ≠ [] ∧ s.all Char.isDigit then
    some (s.foldl (fun n c => 10 * n + (c.toNat - '0'.toNat)) 0)
  else none

/-- Numeric value of an all-digit string, 0 when empty. -/
def digitsVal0 (s : Str) : ℕ :=
  s.foldl (fun n c => 10 * n + (c.toNat - '0'.toNat)) 0

/-- The decimal core of Python `float(str)` as used on condition operands:
an optional sign followed by `digits`, `digits.digits`, `digits.` or
`.digits`.  (Exponent, `inf` and `nan` spellings never appear in strategy
conditions and are not modelled.)  `none` models the `ValueError` that
`evaluate_condition` catches and turns into `None`. -/
def parseFloat (s : Str) : Option ℚ :=
  let core : Str → Option ℚ := fun t =>
    match splitOnChar '.' t with
    | [ip] => (digitsVal ip).map (fun n => (n : ℚ))
    | [ip, fp] =>
      if (ip ≠ [] ∨ fp ≠ []) ∧ ip.all Char.isDigit ∧ fp.all Char.isDigit then
        some ((digitsVal0 ip : ℚ) + (digitsVal0 fp : ℚ) / 10 ^ fp.length)
      else none
    | _ => none
  match s with
  | '-' :: rest => (core rest).map (fun q => -q)
  | '+' :: rest => core rest
  | _ => core s

/-- A dataframe as the condition evaluator sees it: named numeric columns
(the OHLCV columns plus whatever indicator columns were added).  Column
addition by `add_indicators_from_blocks` is abstracted into this table. -/
abbrev Table := List (Str × List ℚ)

/-- `name in df.columns` / `df[name]`: first column with the given name. -/
def lookupCol : Table → Str → Option (List ℚ)
  | [], _ => none
  | (n, v) :: rest, s => if n = s then some v else lookupCol rest s

/-- One comparison branch of `evaluate_condition` (`utils/strategy.py`
lines 179–184 and its `<`, `==` copies): column-vs-column compares
pointwise, column-vs-literal parses the literal with `float(...)`
(a parse failure raises and is caught, giving `None`), and
unknown-vs-unknown falls through to `return None`. -/
def evalCmp (tbl : Table) (op : ℚ → ℚ → Bool) (l r : Str) :
    Option (List Bool) :=
  match lookupCol tbl l, lookupCol tbl r with
  | some ls, some rs => some (List.zipWith op ls rs)
  | some ls, none => (parseFloat r).map (fun x => ls.map (fun a => op a x))
  | none, some rs => (parseFloat l).map (fun x => rs.map (fun b => op x b))
  | none, none => none

/-- `evaluate_condition` (`utils/strategy.py` lines 151–214): tries the
operators `>`, `<`, `==` in that order; a split that does not yield
exactly two parts raises on tuple unpacking and is caught, and every
failure path returns `None` (never an exception to the caller). -/
def evaluateCondition (tbl : Table) (cond : Str) : Option (List Bool) :=
  if cond.contains '>' then
    match splitOnChar '>' cond with
    | [l, r] => evalCmp tbl (fun a b => decide (b < a)) (strTrim l) (strTrim r)
    | _ => none
  else if cond.contains '<' then
    match splitOnChar '<' cond with
    | [l, r] => evalCmp tbl (fun a b => decide (a < b)) (strTrim l) (strTrim r)
    | _ => none
  else if containsEqEq cond then
    match splitOnEqEq cond with
    | [l, r] => evalCmp tbl (fun a b => decide (a = b)) (strTrim l) (strTrim r)
    | _ => none
  else none

/-- A strategy block as `generate_signals` reads it: the `type` tag and
the optional `params['condition']` string. -/
structure Block where
  btype : Str
  condition : Option Str
  deriving Repr, DecidableEq

/-- A strategy: the block list (plus connections, which `generate_signals`
extracts but never uses). -/
structure Strategy where
  blocks : List Block
  connections : List (Str × Str) := []
  deriving Repr

/-- The `type` tag of entry condition blocks. -/
def entryTag : Str := "entry_condition".toList

/-- The `type` tag of exit condition blocks. -/
def exitTag : Str := "exit_condition".toList

/-- `result.loc[mask, col] = 1`: set the column to 1 where the boolean
series is true, keep the previous value elsewhere. -/
def applySignalTrue (sig : List ℤ) (mask : List Bool) : List ℤ :=
  List.zipWith (fun old b => if b then 1 else old) sig mask

/-- Processing of one condition block inside `generate_signals`
(`utils/strategy.py` lines 122–139): a missing or empty condition string
is skipped (`if condition:`), an evaluation returning `None` is skipped
(`if signal is not None:`), otherwise the signal column is set to 1 on the
true rows. -/
def applyConditionBlock (tbl : Table) (sig : List ℤ) (b : Block) : List ℤ :=
  match b.condition with
  | none => sig
  | some c =>
    if c = [] then sig
    else
      match evaluateCondition tbl c with
      | none => sig
      | some mask => applySignalTrue sig mask

/-- `generate_signals` (`utils/strategy.py` lines 92–149): initialize the
`signal` and `exit_signal` columns to 0, fold the entry condition blocks
into `signal` and the exit condition blocks into `exit_signal`.  `n` is
the number of dataframe rows.  (The stop-loss / take-profit handling is an
unimplemented TODO in the source and adds nothing.) -/
def generateSignals (tbl : Table) (n : ℕ) (strat : Strategy) :
    List ℤ × List ℤ :=
  ((strat.blocks.filter (fun b => b.btype = entryTag)).foldl
      (applyConditionBlock tbl) (List.replicate n 0),
   (strat.blocks.filter (fun b => b.btype = exitTag)).foldl
      (applyConditionBlock tbl) (List.replicate n 0))

/-- The signal outcome of `execute_strategy` (`utils/strategy.py`
lines 8–37): a strategy with no blocks short-circuits to an all-zero
`signal` column (and no `exit_signal` column, which `run_backtest` reads
back as 0 through `row.get('exit_signal', 0)` — modelled as a zero
column); otherwise the signals come from `generate_signals`. -/
def executeStrategySignals (tbl : Table) (n : ℕ) (strat : Strategy) :
    List ℤ × List ℤ :=
  if strat.blocks = [] then (List.replicate n 0, List.replicate n 0)
  else generateSignals tbl n strat

/-- `True` when `generate_signals` would skip the block: it is not a
condition block carrying a nonempty condition string that evaluates
successfully. -/
def blockSkipped (tbl : Table) (b : Block) : Bool :=
  match b.condition with
  | none => true
  | some c => c = [] || (evaluateCondition tbl c).isNone

/-! ## Indicators (`utils/indicators.py`) -/

/-- The day-over-day gain series of `add_rsi` (`utils/indicators.py`
lines 59–62): `delta.where(delta > 0, 0)`.  At index 0 `diff()` is `NaN`,
and `NaN > 0` is false, so the value is 0. -/
def gainAt (xs : List ℚ) (i : ℕ) : ℚ :=
  if i = 0 then 0 else max (xs.getD i 0 - xs.getD (i - 1) 0) 0

/-- The day-over-day loss series of `add_rsi`:
`-delta.where(delta < 0, 0)`; 0 at index 0 as for `gainAt`. -/
def lossAt (xs : List ℚ) (i : ℕ) : ℚ :=
  if i = 0 then 0 else max (xs.getD (i - 1) 0 - xs.getD i 0) 0

/-- The indices of the trailing window of length `p` ending at `i`
(the rows a completed `rolling(window=p)` sees). -/
def windowIdx (p i : ℕ) : List ℕ :=
  (List.range p).map (fun k => i + 1 - p + k)

/-- `gain.rolling(window=period).mean()` at row `i`: defined once the
window is complete (`p ≤ i+1`, row exists), `NaN` (= `none`) before. -/
def avgGain (xs : List ℚ) (p i : ℕ) : Option ℚ :=
  if 1 ≤ p ∧ p ≤ i + 1 ∧ i < xs.length then
    some (((windowIdx p i).map (gainAt xs)).sum / p)
  else none

/-- `loss.rolling(window=period).mean()` at row `i`. -/
def avgLoss (xs : List ℚ) (p i : ℕ) : Option ℚ :=
  if 1 ≤ p ∧ p ≤ i + 1 ∧ i < xs.length then
    some (((windowIdx p i).map (lossAt xs)).sum / p)
  else none

/-- The RSI column of `add_rsi` (`utils/indicators.py` lines 56–75):
`rs = avg_gain / avg_loss; rsi = 100 - 100/(1+rs)`.  The float-special
cases are spelled out: with `avg_loss = 0` and `avg_gain > 0`, `rs = inf`
and `rsi = 100 - 100/inf = 100`; with `avg_loss = avg_gain = 0`,
`rs = 0/0 = NaN` and the RSI entry is `NaN` (= `none`); incomplete
windows are `NaN` (= `none`). -/
def rsiAt (xs : List ℚ) (p i : ℕ) : Option ℚ :=
  match avgGain xs p i, avgLoss xs p i with
  | some g, some l =>
    if l = 0 then (if g = 0 then none else some 100)
    else some (100 - 100 / (1 + g / l))
  | _, _ => none

/-- The trailing window of length `p` ending at row `i`: the values a
completed `rolling(window=p)` aggregates. -/
def window (xs : List ℚ) (p i : ℕ) : List ℚ :=
  (xs.take (i + 1)).drop (i + 1 - p)

/-- Unweighted mean of a list (`rolling(...).mean()` on a complete
window). -/
def sma (w : List ℚ) : ℚ := w.sum / w.length

/-- The variance pandas' default `rolling(...).std()` squares: sum of
squared deviations over `n - 1` (ddof = 1, the sample convention). -/
def sampleVar (w : List ℚ) : ℚ :=
  ((w.map (fun x => (x - sma w) ^ 2)).sum) / ((w.length : ℚ) - 1)

/-- Population variance: sum of squared deviations over `n`. -/
def popVar (w : List ℚ) : ℚ :=
  ((w.map (fun x => (x - sma w) ^ 2)).sum) / (w.length : ℚ)

/-- `column.rolling(window=p).mean()` at row `i` (the `BB_Middle` column
of `add_bollinger_bands`, `utils/indicators.py` line 98): defined from row
`p-1` on. -/
def rollingMean (xs : List ℚ) (p i : ℕ) : Option ℚ :=
  if 1 ≤ p ∧ p ≤ i + 1 ∧ i < xs.length then some (sma (window xs p i))
  else none

/-- `column.rolling(window=p).std()` at row `i` (`utils/indicators.py`
line 99): pandas' default `ddof=1`, i.e. the square root of the SAMPLE
variance.  Undefined (`NaN` = `none`) for incomplete windows and for
`p = 1`, where `ddof=1` divides by zero. -/
noncomputable def rollingStd (xs : List ℚ) (p i : ℕ) : Option ℝ :=
  if 2 ≤ p ∧ p ≤ i + 1 ∧ i < xs.length then
    some (Real.sqrt (sampleVar (window xs p i)))
  else none

/-- Rolling POPULATION standard deviation at row `i`.  This is the
quantity the spec's words prescribe for the Bollinger bands; it is NOT
what the code computes, and is defined here only to compare the two. -/
noncomputable def rollingStdPop (xs : List ℚ) (p i : ℕ) : Option ℝ :=
  if 2 ≤ p ∧ p ≤ i + 1 ∧ i < xs.length then
    some (Real.sqrt (popVar (window xs p i)))
  else none

/-- The `BB_Upper` column of `add_bollinger_bands` (`utils/indicators.py`
line 101): `sma + rolling_std * stdev`. -/
noncomputable def bbUpperAt (xs : List ℚ) (p i : ℕ) (m : ℚ) : Option ℝ :=
  match rollingMean xs p i, rollingStd xs p i with
  | some s, some d => some ((s : ℝ) + d * (m : ℝ))
  | _, _ => none

/-- The `BB_Middle` column of `add_bollinger_bands` (`utils/indicators.py`
line 102): the rolling mean itself. -/
def bbMiddleAt (xs : List ℚ) (p i : ℕ) : Option ℚ :=
  rollingMean xs p i

/-- The `BB_Lower` column of `add_bollinger_bands` (`utils/indicators.py`
line 103): `sma - rolling_std * stdev`. -/
noncomputable def bbLowerAt (xs : List ℚ) (p i : ℕ) (m : ℚ) : Option ℝ :=
  match rollingMean xs p i, rollingStd xs p i with
  | some s, some d => some ((s : ℝ) - d * (m : ℝ))
  | _, _ => none

/-- The upper band as the SPEC words it: middle plus multiplier times the
rolling POPULATION standard deviation.  Defined only to be compared with
`bbUpperAt`. -/
noncomputable def bbUpperSpecPop (xs : List ℚ) (p i : ℕ) (m : ℚ) : Option ℝ :=
  match rollingMean xs p i, rollingStdPop xs p i with
  | some s, some d => some ((s : ℝ) + d * (m : ℝ))
  | _, _ => none

/-! ## Performance metrics (`utils/backtest.py` lines 205–212 and
`utils/performance.py` lines 122–206) -/

/-- A profit-factor value: a finite rational or the `float('inf')`
sentinel. -/
inductive PFVal where
  | fin (q : ℚ)
  | inf
  deriving Repr, DecidableEq

/-- The pnl column restricted to sell trades — the input of both
profit-factor computations (`[t for t in trades if t['type'] == 'sell']`
with `t.get('pnl', 0)`). -/
def sellPnls (trades : List Trade) : List ℚ :=
  (trades.filter isSell).map pnlOf

/-- `total_profit` of `calculate_performance_metrics`
(`utils/backtest.py` line 206): the sum of the positive pnl values of the
sell trades.  This is also, verbatim, the claim's "sum of positive pnl
values". -/
def grossProfit (trades : List Trade) : ℚ :=
  ((sellPnls trades).filter (fun q => decide (0 < q))).sum

/-- `total_loss` of `calculate_performance_metrics`
(`utils/backtest.py` line 207): the sum of the ABSOLUTE VALUES of the
negative pnl values of the sell trades. -/
def calcTotalLoss (trades : List Trade) : ℚ :=
  (((sellPnls trades).filter (fun q => decide (q < 0))).map (fun q => |q|)).sum

/-- The claim's "sum of negative pnl values" (a nonpositive number; the
claim divides by its absolute value).  Defined to be compared with
`calcTotalLoss`. -/
def grossLossSum (trades : List Trade) : ℚ :=
  ((sellPnls trades).filter (fun q => decide (q < 0))).sum

/-- The profit factor of `calculate_performance_metrics`
(`utils/backtest.py` lines 205–212): `total_profit / total_loss` when
`total_loss > 0`, else 0 when `total_profit == 0`, else `float('inf')`. -/
def calcProfitFactor (trades : List Trade) : PFVal :=
  if 0 < calcTotalLoss trades then
    .fin (grossProfit trades / calcTotalLoss trades)
  else if grossProfit trades = 0 then .fin 0
  else .inf

/-- `winning_pnls` of `analyze_trades` (`utils/performance.py` line 176):
the strictly positive sell pnls. -/
def analyzeWinning (trades : List Trade) : List ℚ :=
  (sellPnls trades).filter (fun q => decide (0 < q))

/-- `losing_pnls` of `analyze_trades` (`utils/performance.py` line 177):
the sell pnls that are ≤ 0. -/
def analyzeLosing (trades : List Trade) : List ℚ :=
  (sellPnls trades).filter (fun q => decide (q ≤ 0))

/-- `total_profit` of `analyze_trades` (`utils/performance.py` line 187):
`winning_pnls.sum() if not winning_pnls.empty else 0`. -/
def analyzeTotalProfit (trades : List Trade) : ℚ :=
  if analyzeWinning trades = [] then 0 else (analyzeWinning trades).sum

/-- `total_loss` of `analyze_trades` (`utils/performance.py` line 188):
`abs(losing_pnls.sum()) if not losing_pnls.empty else 0` — the absolute
value of the SUM of the nonpositive pnls. -/
def analyzeTotalLoss (trades : List Trade) : ℚ :=
  if analyzeLosing trades = [] then 0 else |(analyzeLosing trades).sum|

/-- The profit factor of `analyze_trades` (`utils/performance.py`
lines 122–206): 0 when there are no sell trades (both early returns),
otherwise `total_profit / total_loss if total_loss != 0 else 0` — there is
no infinity sentinel anywhere in this function. -/
def analyzeProfitFactor (trades : List Trade) : PFVal :=
  if trades.filter isSell = [] then .fin 0
  else if analyzeTotalLoss trades ≠ 0 then
    .fin (analyzeTotalProfit trades / analyzeTotalLoss trades)
  else .fin 0

end AlgoBlocks

namespace AlgoBlocks

/-! ## Helper lemmas about the simulator loop -/

lemma step_hold (comm : ℚ) (st : BTState) (i : ℕ) (bar : Bar)
    (h1 : ¬(bar.signal = 1 ∧ st.position = 0))
    (h2 : ¬((bar.signal = -1 ∨ bar.exitSignal = 1) ∧ st.position = 1)) :
    stepTrades comm st i bar = (st, []) := by
  simp only [stepTrades, if_neg h1, if_neg h2]

lemma step_buy (comm : ℚ) (st : BTState) (i : ℕ) (bar : Bar)
    (h1 : bar.signal = 1) (h2 : st.position = 0) :
    stepTrades comm st i bar =
      (⟨1, st.capital - ⌊st.capital * (1 - comm) / bar.close⌋ * bar.close * (1 + comm),
          ⌊st.capital * (1 - comm) / bar.close⌋, bar.close⟩,
        [Trade.buy i bar.close ⌊st.capital * (1 - comm) / bar.close⌋
          (⌊st.capital * (1 - comm) / bar.close⌋ * bar.close)
          (⌊st.capital * (1 - comm) / bar.close⌋ * bar.close * comm)]) := by
  simp only [stepTrades, if_pos (And.intro h1 h2)]

lemma step_sell (comm : ℚ) (st : BTState) (i : ℕ) (bar : Bar)
    (h1 : bar.signal = -1 ∨ bar.exitSignal = 1) (h2 : st.position = 1) :
    stepTrades comm st i bar =
      (⟨0, st.capital + st.shares * bar.close * (1 - comm), 0, 0⟩,
        [Trade.sell i bar.close st.shares (st.shares * bar.close)
          (st.shares * bar.close * comm)
          (st.shares * (bar.close - st.entryPrice)
            - st.shares * bar.close * comm - st.shares * st.entryPrice * comm)
          ((bar.close / st.entryPrice - 1) * 100 - comm * 2 * 100)]) := by
  have hne : ¬(bar.signal = 1 ∧ st.position = 0) := by
    rintro ⟨-, h⟩; rw [h2] at h; exact one_ne_zero h
  simp only [stepTrades, if_neg hne, if_pos (And.intro h1 h2)]

lemma stateAfter_nil (comm : ℚ) (st : BTState) : stateAfter comm st [] = st := rfl

lemma stateAfter_cons (comm : ℚ) (st : BTState) (bar : Bar) (bars : List Bar) :
    stateAfter comm st (bar :: bars) = stateAfter comm (stepState comm st bar) bars := rfl

lemma stepTrades_fst (comm : ℚ) (st : BTState) (i : ℕ) (bar : Bar) :
    (stepTrades comm st i bar).1 = stepState comm st bar := by
  unfold stepState stepTrades
  split_ifs <;> rfl

lemma runLoop_fst (comm : ℚ) :
    ∀ (bars : List Bar) (st : BTState) (i : ℕ),
      (runLoop comm st i bars).1 = stateAfter comm st bars
  | [], st, i => rfl
  | bar :: rest, st, i => by
    simp only [runLoop, runLoop_fst comm rest _ (i + 1), stepTrades_fst,
      stateAfter_cons]

lemma runLoop_equity_length (comm : ℚ) :
    ∀ (bars : List Bar) (st : BTState) (i : ℕ),
      (runLoop comm st i bars).2.2.length = bars.length
  | [], _, _ => rfl
  | bar :: rest, st, i => by
    simp only [runLoop, List.length_cons, runLoop_equity_length comm rest _ (i + 1)]

/-- The equity point recorded at relative position `k` of the loop is
computed from the state carried in from the previous bars (the state after
`k` steps) marked to market at bar `k`'s close. -/
lemma runLoop_equity_get (comm : ℚ) :
    ∀ (bars : List Bar) (st : BTState) (i k : ℕ), k < bars.length →
      (runLoop comm st i bars).2.2.getD k default =
        ⟨i + k, equityValue (stateAfter comm st (bars.take k))
          ((bars.getD k default).close)⟩
  | [], _, _, _, h => absurd h (Nat.not_lt_zero _)
  | bar :: rest, st, i, 0, _ => by
    simp [runLoop, stateAfter_nil]
  | bar :: rest, st, i, k + 1, h => by
    have hk : k < rest.length := Nat.lt_of_succ_lt_succ h
    have := runLoop_equity_get comm rest (stepState comm st bar) (i + 1) k hk
    simp only [runLoop, stepTrades_fst, List.getD_cons_succ, List.take_succ_cons,
      stateAfter_cons, this]
    congr 1
    omega

lemma floor_1000_div_11 : ⌊(1000 / 11 : ℚ)⌋ = (90 : ℤ) := by
  rw [Int.floor_eq_iff]; norm_num

lemma floor_half : ⌊(1 / 2 : ℚ)⌋ = (0 : ℤ) := by
  rw [Int.floor_eq_iff]; norm_num

lemma buyCount_cons (t : Trade) (ts : List Trade) :
    buyCount (t :: ts) = (if isBuy t then 1 else 0) + buyCount ts := by
  by_cases h : isBuy t <;> simp [buyCount, List.filter_cons, h, Nat.add_comm]

lemma sellCount_cons (t : Trade) (ts : List Trade) :
    sellCount (t :: ts) = (if isSell t then 1 else 0) + sellCount ts := by
  by_cases h : isSell t <;> simp [sellCount, List.filter_cons, h, Nat.add_comm]

lemma alternatesFrom_cons (long : Bool) (t : Trade) (ts : List Trade) :
    alternatesFrom long (t :: ts) =
      if isBuy t then !long && alternatesFrom true ts
      else long && alternatesFrom false ts := rfl

/-- The trade list produced by the loop alternates buys and sells
correctly, starting from the position flag of the initial state. -/
lemma runLoop_alternates (comm : ℚ) :
    ∀ (bars : List Bar) (st : BTState) (i : ℕ),
      st.position = 0 ∨ st.position = 1 →
      alternatesFrom (decide (st.position = 1)) (runLoop comm st i bars).2.1 = true
  | [], _, _, _ => rfl
  | bar :: rest, st, i, hpos => by
    by_cases hbuy : bar.signal = 1 ∧ st.position = 0
    · have hflag : decide (st.position = 1) = false := by
        simp [hbuy.2]
      have ih := runLoop_alternates comm rest
        ⟨1, st.capital - ⌊st.capital * (1 - comm) / bar.close⌋ * bar.close * (1 + comm),
          ⌊st.capital * (1 - comm) / bar.close⌋, bar.close⟩ (i + 1) (Or.inr rfl)
      simp only [runLoop, step_buy comm st i bar hbuy.1 hbuy.2, hflag] at ih ⊢
      simpa [alternatesFrom_cons, isBuy] using ih
    · by_cases hsell : (bar.signal = -1 ∨ bar.exitSignal = 1) ∧ st.position = 1
      · have hflag : decide (st.position = 1) = true := by simp [hsell.2]
        have ih := runLoop_alternates comm rest
          ⟨0, st.capital + st.shares * bar.close * (1 - comm), 0, 0⟩ (i + 1) (Or.inl rfl)
        simp only [runLoop, step_sell comm st i bar hsell.1 hsell.2, hflag] at ih ⊢
        simpa [alternatesFrom_cons, isBuy, isSell] using ih
      · have ih := runLoop_alternates comm rest st (i + 1) hpos
        simp only [runLoop, step_hold comm st i bar hbuy hsell] at ih ⊢
        simpa using ih

/-- In an alternating trade list, every prefix has at most as many sells
as buys (shifted by one when starting LONG). -/
lemma alternates_take_counts :
    ∀ (ts : List Trade) (long : Bool), alternatesFrom long ts = true →
      ∀ n, sellCount (ts.take n) ≤ buyCount (ts.take n) + (if long then 1 else 0)
  | [], _, _, n => by simp [sellCount, buyCount]
  | t :: ts, long, h, 0 => by simp [sellCount, buyCount]
  | t :: ts, long, h, n + 1 => by
    rw [alternatesFrom_cons] at h
    by_cases hb : isBuy t
    · rw [if_pos hb] at h
      obtain ⟨hlong, htail⟩ := Bool.and_eq_true_iff.mp h
      have ih := alternates_take_counts ts true htail n
      have hs : isSell t = false := by
        cases t <;> simp_all [isBuy, isSell]
      simp only [List.take_succ_cons, buyCount_cons, sellCount_cons, hb, hs,
        if_true, if_false, Bool.false_eq_true] at *
      omega
    · rw [if_neg hb] at h
      obtain ⟨hlong, htail⟩ := Bool.and_eq_true_iff.mp h
      have ih := alternates_take_counts ts false htail n
      have hs : isSell t = true := by
        cases t <;> simp_all [isBuy, isSell]
      simp only [List.take_succ_cons, buyCount_cons, sellCount_cons, hb, hs,
        hlong, if_true, if_false, Bool.false_eq_true] at *
      omega

lemma stepState_inv (comm : ℚ) (hc0 : 0 ≤ comm) (hc1 : comm ≤ 1)
    (st : BTState) (bar : Bar) (hclose : 0 < bar.close) (hinv : StInv st) :
    StInv (stepState comm st bar) := by
  obtain ⟨hpos, hcap, hsh, hflat⟩ := hinv
  by_cases hbuy : bar.signal = 1 ∧ st.position = 0
  · rw [stepState, step_buy comm st 0 bar hbuy.1 hbuy.2]
    have hfl : (0 : ℤ) ≤ ⌊st.capital * (1 - comm) / bar.close⌋ :=
      Int.floor_nonneg.mpr
        (div_nonneg (mul_nonneg hcap (by linarith)) (le_of_lt hclose))
    have hfle : ((⌊st.capital * (1 - comm) / bar.close⌋ : ℤ) : ℚ) * bar.close ≤
        st.capital * (1 - comm) := by
      have h1 : ((⌊st.capital * (1 - comm) / bar.close⌋ : ℤ) : ℚ) ≤
          st.capital * (1 - comm) / bar.close := Int.floor_le _
      calc ((⌊st.capital * (1 - comm) / bar.close⌋ : ℤ) : ℚ) * bar.close
          ≤ st.capital * (1 - comm) / bar.close * bar.close :=
            mul_le_mul_of_nonneg_right h1 (le_of_lt hclose)
        _ = st.capital * (1 - comm) := div_mul_cancel₀ _ (ne_of_gt hclose)
    refine ⟨Or.inr rfl, ?_, hfl, fun h => absurd h one_ne_zero⟩
    have h2 : ((⌊st.capital * (1 - comm) / bar.close⌋ : ℤ) : ℚ) * bar.close * (1 + comm) ≤
        st.capital * (1 - comm) * (1 + comm) :=
      mul_le_mul_of_nonneg_right hfle (by linarith)
    nlinarith [mul_nonneg (mul_nonneg hcap hc0) hc0]
  · by_cases hsell : (bar.signal = -1 ∨ bar.exitSignal = 1) ∧ st.position = 1
    · rw [stepState, step_sell comm st 0 bar hsell.1 hsell.2]
      refine ⟨Or.inl rfl, ?_, le_refl 0, fun _ => rfl⟩
      have hshq : (0 : ℚ) ≤ (st.shares : ℚ) := by exact_mod_cast hsh
      have : (0 : ℚ) ≤ (st.shares : ℚ) * bar.close * (1 - comm) :=
        mul_nonneg (mul_nonneg hshq (le_of_lt hclose)) (by linarith)
      linarith
    · rw [stepState, step_hold comm st 0 bar hbuy hsell]
      exact ⟨hpos, hcap, hsh, hflat⟩

lemma stateAfter_inv (comm : ℚ) (hc0 : 0 ≤ comm) (hc1 : comm ≤ 1) :
    ∀ (bars : List Bar) (st : BTState), StInv st →
      (∀ b ∈ bars, 0 < b.close) → StInv (stateAfter comm st bars)
  | [], st, hinv, _ => hinv
  | bar :: rest, st, hinv, hb => by
    rw [stateAfter_cons]
    exact stateAfter_inv comm hc0 hc1 rest _
      (stepState_inv comm hc0 hc1 st bar (hb bar (List.mem_cons_self bar rest)) hinv)
      (fun b hmem => hb b (List.mem_cons_of_mem _ hmem))

/-! ## Claim theorems -/

/-- C1: for the 5-bar price series [10,11,12,11,10] with entry signal
"close greater than prior close", exit signal "close less than prior
close", initial capital 1000 and commission 0, `run_backtest` produces
exactly one buy trade at bar index 1 (price 11, shares 90) and exactly one
sell trade at bar index 3 (price 11, pnl 0), and the recorded equity
equals 1000 at bar 3 and every later bar (the full equity curve is
[1000, 1000, 1090, 1000, 1000]). -/
theorem C1_scenario_trades_and_equity :
    (runBacktest (crossBars [10, 11, 12, 11, 10]) 1000 0).trades =
      [Trade.buy 1 11 90 990 0, Trade.sell 3 11 90 990 0 0 0] ∧
    (runBacktest (crossBars [10, 11, 12, 11, 10]) 1000 0).equity =
      [⟨0, 1000⟩, ⟨1, 1000⟩, ⟨2, 1090⟩, ⟨3, 1000⟩, ⟨4, 1000⟩] := by
  have hb : crossBars [10, 11, 12, 11, 10] =
      [⟨10, 0, 0⟩, ⟨11, 1, 0⟩, ⟨12, 1, 0⟩, ⟨11, 0, 1⟩, ⟨10, 0, 1⟩] := by
    norm_num [crossBars, crossBarsAux]
  have h0 : stepTrades 0 ⟨0, 1000, 0, 0⟩ 0 ⟨10, 0, 0⟩ = (⟨0, 1000, 0, 0⟩, []) := by
    norm_num [stepTrades]
  have h1 : stepTrades 0 ⟨0, 1000, 0, 0⟩ 1 ⟨11, 1, 0⟩ =
      (⟨1, 10, 90, 11⟩, [Trade.buy 1 11 90 990 0]) := by
    simp only [stepTrades]; norm_num [floor_1000_div_11]
  have h2 : stepTrades 0 ⟨1, 10, 90, 11⟩ 2 ⟨12, 1, 0⟩ = (⟨1, 10, 90, 11⟩, []) := by
    norm_num [stepTrades]
  have h3 : stepTrades 0 ⟨1, 10, 90, 11⟩ 3 ⟨11, 0, 1⟩ =
      (⟨0, 1000, 0, 0⟩, [Trade.sell 3 11 90 990 0 0 0]) := by
    norm_num [stepTrades]
  have h4 : stepTrades 0 ⟨0, 1000, 0, 0⟩ 4 ⟨10, 0, 1⟩ = (⟨0, 1000, 0, 0⟩, []) := by
    norm_num [stepTrades]
  rw [hb]
  refine ⟨?_, ?_⟩ <;>
    norm_num [runBacktest, runLoop, initState, h0, h1, h2, h3, h4, equityValue]

/-- C2 (amended): for every price series with positive closes, every
signal configuration, nonnegative initial capital and commission rate in
[0,1], at every point of the run the number of sell trades recorded so far
is at most the number of buy trades recorded so far, the trade list
alternates buy/sell starting flat (each sell closes the position opened by
exactly one preceding buy), and whenever the simulator is LONG the tracked
share count is NONNEGATIVE.  (The original claim's "strictly positive" is
false: the entry branch floors the affordable share count, which is 0 when
the discounted cash is below the close — see the counterexample.) -/
theorem C2_sell_buy_invariant (bars : List Bar) (cap comm : ℚ)
    (hcap : 0 ≤ cap) (hc0 : 0 ≤ comm) (hc1 : comm ≤ 1)
    (hb : ∀ b ∈ bars, 0 < b.close) :
    alternatesFrom false (runBacktest bars cap comm).trades = true ∧
    (∀ n, sellCount ((runBacktest bars cap comm).trades.take n) ≤
      buyCount ((runBacktest bars cap comm).trades.take n)) ∧
    (∀ pre, pre <+: bars →
      (stateAfter comm (initState cap) pre).position = 1 →
      0 ≤ (stateAfter comm (initState cap) pre).shares) := by
  have htr : (runBacktest bars cap comm).trades =
      (runLoop comm (initState cap) 0 bars).2.1 := rfl
  have halt : alternatesFrom false (runLoop comm (initState cap) 0 bars).2.1 = true := by
    have := runLoop_alternates comm bars (initState cap) 0 (Or.inl rfl)
    simpa [initState] using this
  refine ⟨by rw [htr]; exact halt, ?_, ?_⟩
  · intro n
    have := alternates_take_counts (runLoop comm (initState cap) 0 bars).2.1 false halt n
    simpa [htr] using this
  · intro pre hpre _
    have hinv : StInv (stateAfter comm (initState cap) pre) :=
      stateAfter_inv comm hc0 hc1 pre (initState cap)
        ⟨Or.inl rfl, hcap, le_refl 0, fun _ => rfl⟩
        (fun b hmem => hb b (hpre.sublist.subset hmem))
    exact hinv.2.2.1

/-- Witness for C2: the hypotheses are satisfiable — on the concrete
cross-over run of C1's scenario the alternation property holds. -/
theorem C2_sell_buy_invariant_witness :
    alternatesFrom false
      (runBacktest [⟨10, 0, 0⟩, ⟨11, 1, 0⟩, ⟨11, 0, 1⟩] 1000 0).trades = true :=
  (C2_sell_buy_invariant [⟨10, 0, 0⟩, ⟨11, 1, 0⟩, ⟨11, 0, 1⟩] 1000 0
    (by norm_num) (by norm_num) (by norm_num)
    (by intro b hmem; fin_cases hmem <;> norm_num)).1

/-- Counterexample to C2 as stated: with initial capital 5, commission 0
and a single bar with close 10 and an entry signal, the buy branch fires
with `shares = floor(5/10) = 0`, leaving the simulator LONG
(`position = 1`) with a tracked share count of 0, not strictly positive. -/
theorem C2_long_with_zero_shares :
    (runBacktest [⟨10, 1, 0⟩] 5 0).finalState.position = 1 ∧
    (runBacktest [⟨10, 1, 0⟩] 5 0).finalState.shares = 0 := by
  have h0 : stepTrades 0 ⟨0, 5, 0, 0⟩ 0 ⟨10, 1, 0⟩ =
      (⟨1, 5, 0, 10⟩, [Trade.buy 0 10 0 0 0]) := by
    simp only [stepTrades]; norm_num [floor_half]
  refine ⟨?_, ?_⟩ <;> norm_num [runBacktest, runLoop, initState, h0]

/-- C3 (amended): on every FLAT→LONG transition at a bar with an entry
signal, the share count equals `floor((cash × (1 − commission)) / close)`,
cash is reduced by `shares × close × (1 + commission)`, and a buy trade is
recorded UNCONDITIONALLY — also when the floored share count is 0 (the
source has no `shares > 0` guard; see the counterexample). -/
theorem C3_entry_transition (comm : ℚ) (st : BTState) (i : ℕ) (bar : Bar)
    (h1 : bar.signal = 1) (h2 : st.position = 0) :
    (stepTrades comm st i bar).1.shares = ⌊st.capital * (1 - comm) / bar.close⌋ ∧
    (stepTrades comm st i bar).1.capital =
      st.capital - ⌊st.capital * (1 - comm) / bar.close⌋ * bar.close * (1 + comm) ∧
    (stepTrades comm st i bar).2 =
      [Trade.buy i bar.close ⌊st.capital * (1 - comm) / bar.close⌋
        (⌊st.capital * (1 - comm) / bar.close⌋ * bar.close)
        (⌊st.capital * (1 - comm) / bar.close⌋ * bar.close * comm)] := by
  rw [step_buy comm st i bar h1 h2]
  exact ⟨rfl, rfl, rfl⟩

/-- Witness for C3: on the concrete entry of C1's scenario the recorded
share count is `floor(1000/11) = 90` and cash drops to 10. -/
theorem C3_entry_transition_witness :
    (stepTrades 0 ⟨0, 1000, 0, 0⟩ 1 ⟨11, 1, 0⟩).1.shares = 90 ∧
    (stepTrades 0 ⟨0, 1000, 0, 0⟩ 1 ⟨11, 1, 0⟩).1.capital = 10 := by
  obtain ⟨hsh, hcap, -⟩ :=
    C3_entry_transition 0 ⟨0, 1000, 0, 0⟩ 1 ⟨11, 1, 0⟩ rfl rfl
  constructor
  · rw [hsh]; norm_num [floor_1000_div_11]
  · rw [hcap]; norm_num [floor_1000_div_11]

/-- Counterexample to C3 as stated: with cash 5, commission 0 and close
10, the floored share count is 0, yet `run_backtest` still records a buy
trade (with `shares = 0`), contradicting "a buy trade is recorded only if
that share count is strictly greater than 0". -/
theorem C3_zero_share_buy_recorded :
    (runBacktest [⟨10, 1, 0⟩] 5 0).trades = [Trade.buy 0 10 0 0 0] := by
  have h0 : stepTrades 0 ⟨0, 5, 0, 0⟩ 0 ⟨10, 1, 0⟩ =
      (⟨1, 5, 0, 10⟩, [Trade.buy 0 10 0 0 0]) := by
    simp only [stepTrades]; norm_num [floor_half]
  norm_num [runBacktest, runLoop, initState, h0]

/-- C5: on a bar where the entry signal (`signal = 1`) and the exit signal
(`exit_signal = 1`) are simultaneously true, the conflict is resolved
deterministically by the if/elif chain: while LONG the exit executes (one
sell, no new entry, position cleared), while FLAT the entry executes (one
buy, position opened). -/
theorem C5_simultaneous_signal_priority (comm : ℚ) (st : BTState) (i : ℕ)
    (bar : Bar) (h1 : bar.signal = 1) (h2 : bar.exitSignal = 1) :
    (st.position = 1 →
      (stepTrades comm st i bar).1.position = 0 ∧
      (stepTrades comm st i bar).2.all isSell = true ∧
      (stepTrades comm st i bar).2.length = 1) ∧
    (st.position = 0 →
      (stepTrades comm st i bar).1.position = 1 ∧
      (stepTrades comm st i bar).2.all isBuy = true ∧
      (stepTrades comm st i bar).2.length = 1) := by
  constructor
  · intro hp
    rw [step_sell comm st i bar (Or.inr h2) hp]
    exact ⟨rfl, by simp [isSell], rfl⟩
  · intro hp
    rw [step_buy comm st i bar h1 hp]
    exact ⟨rfl, by simp [isBuy], rfl⟩

/-- Witness for C5: a concrete LONG state and a bar carrying both signals;
the step closes the position and records only a sell. -/
theorem C5_simultaneous_signal_priority_witness :
    (stepTrades 0 ⟨1, 10, 90, 11⟩ 0 ⟨11, 1, 1⟩).1.position = 0 ∧
    (stepTrades 0 ⟨1, 10, 90, 11⟩ 0 ⟨11, 1, 1⟩).2.all isSell = true := by
  obtain ⟨hp, hall, -⟩ :=
    (C5_simultaneous_signal_priority 0 ⟨1, 10, 90, 11⟩ 0 ⟨11, 1, 1⟩ rfl rfl).1 rfl
  exact ⟨hp, hall⟩

/-- A run over bars that never carry an entry or exit signal leaves the
state untouched, records no trade, and records the flat capital as equity
at every bar. -/
lemma runLoop_flat (comm : ℚ) :
    ∀ (bars : List Bar) (st : BTState) (i : ℕ),
      st.position = 0 →
      (∀ b ∈ bars, b.signal ≠ 1 ∧ b.exitSignal ≠ 1) →
      runLoop comm st i bars =
        (st, [], (List.range bars.length).map (fun k => ⟨i + k, st.capital⟩))
  | [], st, i, _, _ => by simp [runLoop]
  | bar :: rest, st, i, hpos, hb => by
    have h1 : ¬(bar.signal = 1 ∧ st.position = 0) := fun h =>
      (hb bar (List.mem_cons_self bar rest)).1 h.1
    have h2 : ¬((bar.signal = -1 ∨ bar.exitSignal = 1) ∧ st.position = 1) := by
      rintro ⟨-, h⟩
      rw [hpos] at h
      exact absurd h.symm one_ne_zero
    have ih := runLoop_flat comm rest st (i + 1) hpos
      (fun b hmem => hb b (List.mem_cons_of_mem _ hmem))
    have heq : equityValue st bar.close = st.capital := by
      simp [equityValue, hpos]
    have hrange : (List.range (rest.length + 1)).map
        (fun k => (⟨i + k, st.capital⟩ : EquityPoint)) =
        ⟨i, st.capital⟩ ::
          (List.range rest.length).map (fun k => ⟨i + 1 + k, st.capital⟩) := by
      rw [List.range_succ_eq_map, List.map_cons, List.map_map]
      refine congrArg₂ _ (by simp) (List.map_congr_left fun k _ => ?_)
      simp only [Function.comp]
      congr 1
      omega
    simp only [runLoop, step_hold comm st i bar h1 h2, ih, heq,
      List.length_cons, hrange, List.nil_append]

/-- `mkBars` with all-zero signal columns of matching length yields bars
with zero signals. -/
lemma mkBars_replicate (closes : List ℚ) :
    mkBars closes (List.replicate closes.length 0)
        (List.replicate closes.length 0) =
      closes.map (fun c => ⟨c, 0, 0⟩) := by
  induction closes with
  | nil => rfl
  | cons c rest ih =>
    simp only [mkBars, List.length_cons, List.replicate_succ, List.zipWith3,
      List.map_cons] at *
    rw [ih]

/-- C7: a strategy with no blocks (whose `execute_strategy` short-circuit
produces an all-zero signal column), and more generally any signal
configuration in which the entry and exit signals are never true, runs to
completion with zero trades and an equity curve that is constant at the
initial capital for every bar of the series. -/
theorem C7_empty_strategy_flat_equity (closes : List ℚ) (tbl : Table)
    (strat : Strategy) (cap comm : ℚ) :
    (strat.blocks = [] →
      (runBacktest (mkBars closes
          (executeStrategySignals tbl closes.length strat).1
          (executeStrategySignals tbl closes.length strat).2) cap comm).trades = [] ∧
      (runBacktest (mkBars closes
          (executeStrategySignals tbl closes.length strat).1
          (executeStrategySignals tbl closes.length strat).2) cap comm).equity =
        (List.range closes.length).map (fun k => ⟨k, cap⟩)) ∧
    (∀ bars : List Bar, (∀ b ∈ bars, b.signal ≠ 1 ∧ b.exitSignal ≠ 1) →
      (runBacktest bars cap comm).trades = [] ∧
      (runBacktest bars cap comm).equity =
        (List.range bars.length).map (fun k => ⟨k, cap⟩)) := by
  have main : ∀ bars : List Bar, (∀ b ∈ bars, b.signal ≠ 1 ∧ b.exitSignal ≠ 1) →
      (runBacktest bars cap comm).trades = [] ∧
      (runBacktest bars cap comm).equity =
        (List.range bars.length).map (fun k => ⟨k, cap⟩) := by
    intro bars hb
    have h := runLoop_flat comm bars (initState cap) 0 rfl hb
    constructor
    · show (runLoop comm (initState cap) 0 bars).2.1 = []
      rw [h]
    · show (runLoop comm (initState cap) 0 bars).2.2 = _
      rw [h]
      exact List.map_congr_left fun k _ => by
        simp [initState]
  refine ⟨fun hempty => ?_, main⟩
  have hsig : executeStrategySignals tbl closes.length strat =
      (List.replicate closes.length 0, List.replicate closes.length 0) := by
    rw [executeStrategySignals, if_pos hempty]
  rw [hsig]
  have hbars := mkBars_replicate closes
  constructor
  · rw [hbars]
    exact (main _ (by
      intro b hmem
      obtain ⟨c, -, rfl⟩ := List.mem_map.mp hmem
      exact ⟨by simp, by simp⟩)).1
  · rw [hbars]
    have := (main (closes.map (fun c => ⟨c, 0, 0⟩)) (by
      intro b hmem
      obtain ⟨c, -, rfl⟩ := List.mem_map.mp hmem
      exact ⟨by simp, by simp⟩)).2
    rw [this, List.length_map]

/-- Witness for C7: the empty strategy on a concrete two-bar series with
capital 7 gives no trades and the constant equity curve [7, 7]. -/
theorem C7_empty_strategy_flat_equity_witness :
    (runBacktest (mkBars [1, 2]
        (executeStrategySignals [] 2 ⟨[], []⟩).1
        (executeStrategySignals [] 2 ⟨[], []⟩).2) 7 0).trades = [] ∧
    (runBacktest (mkBars [1, 2]
        (executeStrategySignals [] 2 ⟨[], []⟩).1
        (executeStrategySignals [] 2 ⟨[], []⟩).2) 7 0).equity =
      [⟨0, 7⟩, ⟨1, 7⟩] := by
  obtain ⟨ht, he⟩ := (C7_empty_strategy_flat_equity [1, 2] [] ⟨[], []⟩ 7 0).1 rfl
  exact ⟨ht, he.trans rfl⟩

lemma floor_nine : ⌊(9 : ℚ)⌋ = (9 : ℤ) := by
  rw [Int.floor_eq_iff]; norm_num

/-- C10: the equity point recorded at any bar `t` is computed from the
state carried in from bar `t−1` (equity is appended before the bar's
signal is acted on).  In particular, at a FLAT→LONG entry bar the recorded
equity equals the pre-purchase cash — independent of the commission about
to be charged — and the commission-reduced cash only enters the state
carried into bar `t+1` (hence the equity of the following bar). -/
theorem C10_equity_recorded_before_trade (comm cap : ℚ) (bars : List Bar) :
    (∀ k, k < bars.length →
      (runBacktest bars cap comm).equity.getD k default =
        ⟨k, equityValue (stateAfter comm (initState cap) (bars.take k))
          ((bars.getD k default).close)⟩) ∧
    (∀ k, k < bars.length →
      (stateAfter comm (initState cap) (bars.take k)).position = 0 →
      (bars.getD k default).signal = 1 →
      (runBacktest bars cap comm).equity.getD k default =
        ⟨k, (stateAfter comm (initState cap) (bars.take k)).capital⟩ ∧
      (stateAfter comm (initState cap) (bars.take (k + 1))).capital =
        (stateAfter comm (initState cap) (bars.take k)).capital -
          ⌊(stateAfter comm (initState cap) (bars.take k)).capital * (1 - comm) /
              (bars.getD k default).close⌋ *
            (bars.getD k default).close * (1 + comm)) := by
  have part1 : ∀ k, k < bars.length →
      (runBacktest bars cap comm).equity.getD k default =
        ⟨k, equityValue (stateAfter comm (initState cap) (bars.take k))
          ((bars.getD k default).close)⟩ := by
    intro k hk
    have := runLoop_equity_get comm bars (initState cap) 0 k hk
    simpa using this
  refine ⟨part1, fun k hk hpos hsig => ?_⟩
  constructor
  · rw [part1 k hk]
    congr 1
    simp [equityValue, hpos]
  · have htake : bars.take (k + 1) = bars.take k ++ [bars.getD k default] := by
      rw [List.take_succ, List.getElem?_eq_getElem hk,
        List.getD_eq_getElem bars default hk]
      rfl
    rw [htake, stateAfter, List.foldl_append]
    show (stepState comm (stateAfter comm (initState cap) (bars.take k))
      (bars.getD k default)).capital = _
    rw [stepState, step_buy comm _ 0 _ hsig hpos]

/-- Witness for C10: two bars at close 10, entry on the first bar, capital
100, commission 1/10.  The equity recorded at the entry bar is the
pre-purchase cash 100; the cash carried into the next bar is
100 − 9·10·1.1 = 1, which is where the entry commission first shows. -/
theorem C10_equity_recorded_before_trade_witness :
    (runBacktest [⟨10, 1, 0⟩, ⟨10, 0, 0⟩] 100 (1/10)).equity.getD 0 default =
      ⟨0, 100⟩ ∧
    (stateAfter (1/10) (initState 100) ([⟨10, 1, 0⟩, ⟨10, 0, 0⟩].take 1)).capital = 1 := by
  obtain ⟨h1, h2⟩ :=
    (C10_equity_recorded_before_trade (1/10) 100 [⟨10, 1, 0⟩, ⟨10, 0, 0⟩]).2
      0 (by norm_num) rfl rfl
  constructor
  · exact h1.trans rfl
  · refine h2.trans ?_
    show (100 : ℚ) - ⌊(100 : ℚ) * (1 - 1/10) / 10⌋ * 10 * (1 + 1/10) = 1
    have h9 : ⌊(100 : ℚ) * (1 - 1/10) / 10⌋ = (9 : ℤ) := by
      have : (100 : ℚ) * (1 - 1/10) / 10 = 9 := by norm_num
      rw [this, floor_nine]
    rw [h9]
    norm_num

/-- A fold of condition blocks that are all skipped leaves the signal
column unchanged. -/
lemma foldl_applyConditionBlock_skip (tbl : Table) :
    ∀ (bs : List Block) (sig : List ℤ),
      (∀ b ∈ bs, blockSkipped tbl b = true) →
      bs.foldl (applyConditionBlock tbl) sig = sig
  | [], _, _ => rfl
  | b :: rest, sig, h => by
    have hb := h b (List.mem_cons_self b rest)
    have hskip : applyConditionBlock tbl sig b = sig := by
      cases hc : b.condition with
      | none => simp [applyConditionBlock, hc]
      | some c =>
        by_cases hce : c = []
        · simp [applyConditionBlock, hc, hce]
        · have hnone : evaluateCondition tbl c = none := by
            rw [blockSkipped, hc] at hb
            simp only [Bool.or_eq_true, decide_eq_true_eq] at hb
            rcases hb with hb | hb
            · exact absurd hb hce
            · exact Option.isNone_iff_eq_none.mp hb
          simp [applyConditionBlock, hc, hce, hnone]
    rw [List.foldl_cons, hskip]
    exact foldl_applyConditionBlock_skip tbl rest sig
      (fun b hmem => h b (List.mem_cons_of_mem _ hmem))

/-- C4 (amended): a condition block whose condition string is malformed
(no recognized operator, or a split into more than two pieces) or
references column names absent from the table on both sides makes
`evaluate_condition` return `None`; `generate_signals` SILENTLY SKIPS such
blocks (`if signal is not None`), so the run completes normally with the
block contributing nothing — the signal columns stay all-zero (all-false)
and no error of any kind is surfaced.  (The original claim's "surfaces an
EvaluationError and aborts the run" does not happen anywhere in the
source; see the counterexample.) -/
theorem C4_malformed_conditions_silently_skipped (tbl : Table) (n : ℕ)
    (strat : Strategy) (h : strat.blocks.all (blockSkipped tbl) = true) :
    generateSignals tbl n strat = (List.replicate n 0, List.replicate n 0) := by
  have hall := List.all_eq_true.mp h
  unfold generateSignals
  rw [foldl_applyConditionBlock_skip tbl _ _
      (fun b hmem => hall b (List.mem_of_mem_filter hmem)),
    foldl_applyConditionBlock_skip tbl _ _
      (fun b hmem => hall b (List.mem_of_mem_filter hmem))]

/-- Witness for C4: a concrete strategy whose single entry block carries
the unknown-columns condition "Foo > Bar" over a table with only a Close
column; signal generation completes with all-zero columns. -/
theorem C4_malformed_conditions_silently_skipped_witness :
    generateSignals [("Close".toList, [1, 2])] 2
        ⟨[⟨"entry_condition".toList, some "Foo > Bar".toList⟩], []⟩ =
      (List.replicate 2 0, List.replicate 2 0) :=
  C4_malformed_conditions_silently_skipped [("Close".toList, [1, 2])] 2
    ⟨[⟨"entry_condition".toList, some "Foo > Bar".toList⟩], []⟩ (by decide)

/-- Counterexample to C4 as stated: for the unknown-columns condition
"Foo > Bar", the no-operator condition "Close Close" and the unbalanced
condition "Close > Close > Close", `evaluate_condition` returns `None`
(it never raises to the caller), and `generate_signals` on a strategy
carrying such a block returns normally with the all-false signal series —
no `EvaluationError` is surfaced and the run is not aborted. -/
theorem C4_no_error_is_surfaced :
    evaluateCondition [("Close".toList, [1, 2])] "Foo > Bar".toList = none ∧
    evaluateCondition [("Close".toList, [1, 2])] "Close Close".toList = none ∧
    evaluateCondition [("Close".toList, [1, 2])]
      "Close > Close > Close".toList = none ∧
    generateSignals [("Close".toList, [1, 2])] 2
        ⟨[⟨"entry_condition".toList, some "Foo > Bar".toList⟩,
          ⟨"exit_condition".toList, some "Close Close".toList⟩], []⟩ =
      (List.replicate 2 0, List.replicate 2 0) := by
  refine ⟨by decide, by decide, by decide, ?_⟩
  decide

lemma list_sum_nonpos : ∀ l : List ℚ, (∀ x ∈ l, x ≤ 0) → l.sum ≤ 0
  | [], _ => by simp
  | x :: l, h => by
    rw [List.sum_cons]
    have hrec := list_sum_nonpos l (fun y hy => h y (List.mem_cons_of_mem x hy))
    have hx := h x (List.mem_cons_self x l)
    linarith

/-- For a list of strictly negative rationals, the sum of the absolute
values equals the absolute value of the sum — this is what makes the
code's `sum(abs(pnl))` agree with the claim's `|sum(pnl)|`. -/
lemma sum_map_abs_of_neg :
    ∀ l : List ℚ, (∀ x ∈ l, x < 0) → (l.map (fun q => |q|)).sum = |l.sum|
  | [], _ => by simp
  | x :: l, h => by
    have hx := h x (List.mem_cons_self x l)
    have hrec := sum_map_abs_of_neg l (fun y hy => h y (List.mem_cons_of_mem x hy))
    have hsum : l.sum ≤ 0 :=
      list_sum_nonpos l (fun y hy => le_of_lt (h y (List.mem_cons_of_mem x hy)))
    rw [List.map_cons, List.sum_cons, List.sum_cons, hrec, abs_of_neg hx,
      abs_of_nonpos hsum, abs_of_nonpos (by linarith : x + l.sum ≤ 0)]
    ring

/-- C6 (amended): over the sell trades, `calculate_performance_metrics`
computes the profit factor as (sum of positive pnl) / |sum of negative
pnl| whenever a losing trade exists, returns the `float('inf')` sentinel
when there are no losing trades but positive profit, and 0 when there are
no losing trades and no profit — never an exception.  `analyze_trades`
(`utils/performance.py`), however, returns 0 whenever there are no losing
trades, EVEN when total profit is positive: it has no infinity branch (see
the counterexample). -/
theorem C6_profit_factor_conventions (trades : List Trade)
    (hs : trades.filter isSell ≠ []) :
    ((∃ q ∈ sellPnls trades, q < 0) →
      calcProfitFactor trades =
        .fin (grossProfit trades / |grossLossSum trades|)) ∧
    ((∀ q ∈ sellPnls trades, 0 ≤ q) →
      (grossProfit trades ≠ 0 → calcProfitFactor trades = .inf) ∧
      (grossProfit trades = 0 → calcProfitFactor trades = .fin 0) ∧
      analyzeProfitFactor trades = .fin 0) := by
  constructor
  · rintro ⟨q, hq, hqneg⟩
    have hLmem : q ∈ (sellPnls trades).filter (fun q => decide (q < 0)) :=
      List.mem_filter.mpr ⟨hq, by simpa using hqneg⟩
    have hLne : (sellPnls trades).filter (fun q => decide (q < 0)) ≠ [] :=
      fun hnil => by rw [hnil] at hLmem; exact absurd hLmem (List.not_mem_nil q)
    have hLneg : ∀ x ∈ (sellPnls trades).filter (fun q => decide (q < 0)), x < 0 :=
      fun x hx => by simpa using List.of_mem_filter hx
    have habs : calcTotalLoss trades = |grossLossSum trades| :=
      sum_map_abs_of_neg _ hLneg
    have hpos : 0 < calcTotalLoss trades := by
      rw [calcTotalLoss]
      refine List.sum_pos _ (fun x hx => ?_) (by simpa using hLne)
      obtain ⟨y, hy, rfl⟩ := List.mem_map.mp hx
      exact abs_pos.mpr (ne_of_lt (hLneg y hy))
    rw [calcProfitFactor, if_pos hpos, habs]
  · intro hnn
    have hLnil : (sellPnls trades).filter (fun q => decide (q < 0)) = [] :=
      List.filter_eq_nil_iff.mpr
        (fun a ha => by simpa using not_lt.mpr (hnn a ha))
    have hLzero : calcTotalLoss trades = 0 := by
      rw [calcTotalLoss, hLnil]
      rfl
    refine ⟨?_, ?_, ?_⟩
    · intro hgp
      rw [calcProfitFactor, if_neg (by rw [hLzero]; exact lt_irrefl 0),
        if_neg hgp]
    · intro hgp
      rw [calcProfitFactor, if_neg (by rw [hLzero]; exact lt_irrefl 0),
        if_pos hgp]
    · have hzero : ∀ x ∈ analyzeLosing trades, x = 0 := fun x hx =>
        le_antisymm (by simpa using List.of_mem_filter hx)
          (hnn x (List.mem_of_mem_filter hx))
      have hsum0 : analyzeTotalLoss trades = 0 := by
        rw [analyzeTotalLoss]
        by_cases hnil : analyzeLosing trades = []
        · rw [if_pos hnil]
        · rw [if_neg hnil, List.sum_eq_zero hzero, abs_zero]
      rw [analyzeProfitFactor, if_neg hs,
        if_neg (by rw [hsum0]; exact fun h => h rfl)]

/-- Witness for C6: a winning sell (pnl 5) and a losing sell (pnl −2)
give profit factor 5/2 in `calculate_performance_metrics`. -/
theorem C6_profit_factor_conventions_witness :
    calcProfitFactor
      [Trade.sell 0 10 1 10 0 5 50, Trade.sell 1 10 1 10 0 (-2) (-20)] =
      PFVal.fin (5 / 2) := by
  have h :=
    (C6_profit_factor_conventions
      [Trade.sell 0 10 1 10 0 5 50, Trade.sell 1 10 1 10 0 (-2) (-20)]
      (by decide)).1 (by decide)
  refine h.trans ?_
  have h1 : grossProfit
      [Trade.sell 0 10 1 10 0 5 50, Trade.sell 1 10 1 10 0 (-2) (-20)] = 5 := by
    norm_num [grossProfit, sellPnls, pnlOf, isSell, List.filter_cons]
  have h2 : grossLossSum
      [Trade.sell 0 10 1 10 0 5 50, Trade.sell 1 10 1 10 0 (-2) (-20)] = -2 := by
    norm_num [grossLossSum, sellPnls, pnlOf, isSell, List.filter_cons]
  rw [h1, h2]
  norm_num

/-- Counterexample to C6 as stated: a single winning sell trade (pnl 5,
no losing trades).  `analyze_trades` yields profit factor 0 — not the +∞
sentinel the claim prescribes — while `calculate_performance_metrics`
yields +∞ on the same input. -/
theorem C6_analyze_trades_zero_not_inf :
    analyzeProfitFactor [Trade.sell 0 10 1 10 0 5 50] = PFVal.fin 0 ∧
    calcProfitFactor [Trade.sell 0 10 1 10 0 5 50] = PFVal.inf := by
  refine ⟨by decide, ?_⟩
  have hgp : grossProfit [Trade.sell 0 10 1 10 0 5 50] = 5 := by
    norm_num [grossProfit, sellPnls, pnlOf, isSell, List.filter_cons]
  have hL : calcTotalLoss [Trade.sell 0 10 1 10 0 5 50] = 0 := by
    norm_num [calcTotalLoss, sellPnls, pnlOf, isSell, List.filter_cons]
  rw [calcProfitFactor, hL, hgp]
  norm_num

lemma gainAt_nonneg (xs : List ℚ) (i : ℕ) : 0 ≤ gainAt xs i := by
  rw [gainAt]
  split
  · exact le_refl 0
  · exact le_max_right _ 0

lemma lossAt_nonneg (xs : List ℚ) (i : ℕ) : 0 ≤ lossAt xs i := by
  rw [lossAt]
  split
  · exact le_refl 0
  · exact le_max_right _ 0

lemma avgGain_nonneg (xs : List ℚ) (p i : ℕ) (g : ℚ)
    (h : avgGain xs p i = some g) : 0 ≤ g := by
  rw [avgGain] at h
  split at h
  · obtain rfl := Option.some.inj h
    refine div_nonneg (List.sum_nonneg fun x hx => ?_) (by positivity)
    obtain ⟨k, -, rfl⟩ := List.mem_map.mp hx
    exact gainAt_nonneg xs k
  · cases h

lemma avgLoss_nonneg (xs : List ℚ) (p i : ℕ) (l : ℚ)
    (h : avgLoss xs p i = some l) : 0 ≤ l := by
  rw [avgLoss] at h
  split at h
  · obtain rfl := Option.some.inj h
    refine div_nonneg (List.sum_nonneg fun x hx => ?_) (by positivity)
    obtain ⟨k, -, rfl⟩ := List.mem_map.mp hx
    exact lossAt_nonneg xs k
  · cases h

/-- C9: every defined RSI value lies in [0, 100], and whenever the
trailing window shows no losses (average loss 0) while the RSI is defined
(which requires positive average gain), the RSI saturates to exactly 100
instead of raising an error. -/
theorem C9_rsi_bounded_and_saturating (xs : List ℚ) (p i : ℕ) (r : ℚ)
    (h : rsiAt xs p i = some r) :
    (0 ≤ r ∧ r ≤ 100) ∧ (avgLoss xs p i = some 0 → r = 100) := by
  rw [rsiAt] at h
  cases hg : avgGain xs p i with
  | none => rw [hg] at h; cases h
  | some g =>
    cases hl : avgLoss xs p i with
    | none => rw [hg, hl] at h; cases h
    | some l =>
      simp only [hg, hl] at h
      by_cases hl0 : l = 0
      · rw [if_pos hl0] at h
        by_cases hg0 : g = 0
        · rw [if_pos hg0] at h; cases h
        · rw [if_neg hg0] at h
          obtain rfl : (100 : ℚ) = r := Option.some.inj h
          exact ⟨⟨by norm_num, le_refl _⟩, fun _ => rfl⟩
      · rw [if_neg hl0] at h
        obtain rfl := Option.some.inj h
        have hgn : 0 ≤ g := avgGain_nonneg xs p i g hg
        have hln : 0 ≤ l := avgLoss_nonneg xs p i l hl
        have hlpos : 0 < l := lt_of_le_of_ne hln (Ne.symm hl0)
        have ht : 0 ≤ g / l := div_nonneg hgn hln
        have h1 : (0 : ℚ) < 1 + g / l := by linarith
        have h2 : 100 / (1 + g / l) ≤ 100 := by
          rw [div_le_iff₀ h1]; nlinarith
        have h3 : 0 < 100 / (1 + g / l) := by positivity
        refine ⟨⟨by linarith, by linarith⟩, fun hzero => ?_⟩
        exact absurd (Option.some.inj hzero) hl0

/-- Witness for C9: on the rising series [1,2,3] with period 2, the
window at the last bar has gains but no losses; the RSI is defined and
equals 100, within bounds. -/
theorem C9_rsi_bounded_and_saturating_witness :
    rsiAt [1, 2, 3] 2 2 = some 100 ∧
    ((0 : ℚ) ≤ 100 ∧ (100 : ℚ) ≤ 100) := by
  have h100 : rsiAt [1, 2, 3] 2 2 = some 100 := by
    norm_num [rsiAt, avgGain, avgLoss, windowIdx, gainAt, lossAt,
      List.range_succ]
  exact ⟨h100, (C9_rsi_bounded_and_saturating [1, 2, 3] 2 2 100 h100).1⟩

lemma window_length (xs : List ℚ) (p i : ℕ) (hpi : p ≤ i + 1)
    (hi : i < xs.length) : (window xs p i).length = p := by
  rw [window, List.length_drop, List.length_take]
  omega

/-- pandas' ddof = 1 sample variance is `n/(n−1)` times the population
variance. -/
lemma sampleVar_eq_popVar (w : List ℚ) (h : 2 ≤ w.length) :
    sampleVar w = ((w.length : ℚ) / ((w.length : ℚ) - 1)) * popVar w := by
  have h1 : ((w.length : ℚ)) ≠ 0 := by
    have : (2 : ℚ) ≤ (w.length : ℚ) := by exact_mod_cast h
    linarith
  have h2 : ((w.length : ℚ) - 1) ≠ 0 := by
    have : (2 : ℚ) ≤ (w.length : ℚ) := by exact_mod_cast h
    intro hc; rw [sub_eq_zero] at hc; rw [hc] at this; norm_num at this
  rw [sampleVar, popVar]
  field_simp
  ring

/-- C8 (amended): the Bollinger middle band is the simple moving average
over the period, but the upper/lower bands add/subtract the multiplier
times the rolling SAMPLE standard deviation (pandas' `.std()` default,
ddof = 1) — equivalently `sqrt(p/(p−1))` times the population standard
deviation the spec prescribes, which differs from it for every window
whose sample variance is nonzero (see the counterexample). -/
theorem C8_bollinger_sample_std (xs : List ℚ) (p i : ℕ) (m : ℚ)
    (hp : 2 ≤ p) (hpi : p ≤ i + 1) (hi : i < xs.length) :
    bbMiddleAt xs p i = some (sma (window xs p i)) ∧
    bbUpperAt xs p i m =
      some ((sma (window xs p i) : ℝ) +
        Real.sqrt (((p : ℝ) / ((p : ℝ) - 1)) * (popVar (window xs p i) : ℝ)) * (m : ℝ)) ∧
    bbLowerAt xs p i m =
      some ((sma (window xs p i) : ℝ) -
        Real.sqrt (((p : ℝ) / ((p : ℝ) - 1)) * (popVar (window xs p i) : ℝ)) * (m : ℝ)) := by
  have hcond1 : 1 ≤ p ∧ p ≤ i + 1 ∧ i < xs.length := ⟨by omega, hpi, hi⟩
  have hcond2 : 2 ≤ p ∧ p ≤ i + 1 ∧ i < xs.length := ⟨hp, hpi, hi⟩
  have hw : (window xs p i).length = p := window_length xs p i hpi hi
  have hcast : (sampleVar (window xs p i) : ℝ) =
      ((p : ℝ) / ((p : ℝ) - 1)) * (popVar (window xs p i) : ℝ) := by
    have hq := sampleVar_eq_popVar (window xs p i) (by rw [hw]; exact hp)
    rw [hw] at hq
    have := congrArg (fun q : ℚ => (q : ℝ)) hq
    push_cast at this
    exact this
  have hm : rollingMean xs p i = some (sma (window xs p i)) := by
    rw [rollingMean, if_pos hcond1]
  have hstd : rollingStd xs p i =
      some (Real.sqrt ((sampleVar (window xs p i) : ℝ))) := by
    rw [rollingStd, if_pos hcond2]
  refine ⟨hm, ?_, ?_⟩
  · simp only [bbUpperAt, hm, hstd, hcast]
  · simp only [bbLowerAt, hm, hstd, hcast]

/-- Witness for C8: a concrete complete window ([0, 2], period 2) on
which the band equations of the amended claim hold. -/
theorem C8_bollinger_sample_std_witness :
    bbMiddleAt [0, 2] 2 1 = some (sma (window [0, 2] 2 1)) ∧
    bbUpperAt [0, 2] 2 1 1 =
      some ((sma (window [0, 2] 2 1) : ℝ) +
        Real.sqrt (((2 : ℕ) : ℝ) / (((2 : ℕ) : ℝ) - 1) *
          (popVar (window [0, 2] 2 1) : ℝ)) * ((1 : ℚ) : ℝ)) :=
  let h := C8_bollinger_sample_std [0, 2] 2 1 1 (by norm_num) (by norm_num)
    (by norm_num)
  ⟨h.1, h.2.1⟩

/-- Counterexample to C8 as stated: for the window [0, 2] with period 2
and multiplier 1, the code's upper band is `1 + sqrt 2` (sample standard
deviation sqrt 2) while the spec's population-standard-deviation band is
`1 + 1 = 2`; they differ. -/
theorem C8_upper_band_differs_from_spec :
    bbUpperAt [0, 2] 2 1 1 ≠ bbUpperSpecPop [0, 2] 2 1 1 := by
  have hwin : window [0, 2] 2 1 = [0, 2] := by norm_num [window]
  have hsma : sma [0, 2] = 1 := by norm_num [sma]
  have hsv : sampleVar [0, 2] = 2 := by
    norm_num [sampleVar, sma]
  have hpv : popVar [0, 2] = 1 := by
    norm_num [popVar, sma]
  have hm : rollingMean [0, 2] 2 1 = some 1 := by
    rw [rollingMean,
      if_pos (by norm_num : 1 ≤ 2 ∧ 2 ≤ 1 + 1 ∧ 1 < ([0, 2] : List ℚ).length),
      hwin, hsma]
  have hstd : rollingStd [0, 2] 2 1 = some (Real.sqrt 2) := by
    rw [rollingStd,
      if_pos (by norm_num : 2 ≤ 2 ∧ 2 ≤ 1 + 1 ∧ 1 < ([0, 2] : List ℚ).length),
      hwin, hsv]
    norm_num
  have hstdp : rollingStdPop [0, 2] 2 1 = some 1 := by
    rw [rollingStdPop,
      if_pos (by norm_num : 2 ≤ 2 ∧ 2 ≤ 1 + 1 ∧ 1 < ([0, 2] : List ℚ).length),
      hwin, hpv]
    norm_num
  have hu : bbUpperAt [0, 2] 2 1 1 = some (1 + Real.sqrt 2) := by
    simp only [bbUpperAt, hm, hstd]
    norm_num
  have hspec : bbUpperSpecPop [0, 2] 2 1 1 = some 2 := by
    simp only [bbUpperSpecPop, hm, hstdp]
    norm_num
  intro h
  rw [hu, hspec] at h
  have h2 := Option.some.inj h
  have hs2 : Real.sqrt 2 = 1 := by linarith
  have := Real.sq_sqrt (by norm_num : (0 : ℝ) ≤ 2)
  rw [hs2] at this
  norm_num at this

end AlgoBlocks
